import Mathlib

/-!
Verification of the mcp-use adapter layer.

Shallow embedding of `src/mcpeer/agents/langchain_agent.py` and
`src/pymcp/types.py`.  Python dictionaries are modelled as association
lists in insertion order (assignment to an existing key keeps its
position, assignment to a fresh key appends at the end, deletion removes
the entry); Python values passed through the schema normalizer are
modelled by the inductive type `JSON`.
-/

set_option autoImplicit false

/-- A JSON-like Python value: None, bool, int, str, list, dict. -/
inductive JSON where
  | null
  | bool (b : Bool)
  | num (n : Int)
  | str (s : String)
  | arr (xs : List JSON)
  | obj (kvs : List (String × JSON))

/-- First value stored under key `k`, the model of `d[k]` / `k in d`. -/
def lookupKey (k : String) : List (String × JSON) → Option JSON
  | [] => none
  | (k', v) :: rest => if k' = k then some v else lookupKey k rest

/-- The model of `d[k] = v`: replace the value in place when the key is
present, append the pair at the end otherwise. -/
def setKey (k : String) (v : JSON) : List (String × JSON) → List (String × JSON)
  | [] => [(k, v)]
  | (k', v') :: rest => if k' = k then (k', v) :: rest else (k', v') :: setKey k v rest

/-- The model of `del d[k]`: drop the entry holding key `k`. -/
def eraseKey (k : String) : List (String × JSON) → List (String × JSON)
  | [] => []
  | (k', v') :: rest => if k' = k then rest else (k', v') :: eraseKey k rest

/-- Keys are pairwise distinct, as they are in every Python dict. -/
def keysNodup : List (String × JSON) → Bool
  | [] => true
  | (k, _) :: rest => (lookupKey k rest).isNone && keysNodup rest

/-- Is this value a Python list? -/
def isArr : JSON → Bool
  | .arr _ => true
  | _ => false

/-- Is this value a Python dict? -/
def isObj : JSON → Bool
  | .obj _ => true
  | _ => false

/-- Does this optional value hold a Python list? -/
def isArrOpt : Option JSON → Bool
  | some v => isArr v
  | none => false

/-- The entries of a dict value (empty for non-dicts). -/
def objFields : JSON → List (String × JSON)
  | .obj kvs => kvs
  | _ => []

mutual

/-- Size measure counting only dict structure: the schema normalizer
recurses through dict values only, so list contents weigh nothing. -/
def sizeJ : JSON → Nat
  | .obj kvs => 1 + sizeKVs kvs
  | _ => 0

def sizeKVs : List (String × JSON) → Nat
  | [] => 0
  | (_, v) :: rest => 1 + sizeJ v + sizeKVs rest

end

/-- Lines 107-109 of `langchain_agent.py`: when the dict holds a
list-valued `type` field, install `anyOf` with one single-type sub-schema
per entry and delete `type`. -/
def rewriteStep (kvs : List (String × JSON)) : List (String × JSON) :=
  match lookupKey "type" kvs with
  | some (.arr ts) =>
      eraseKey "type"
        (setKey "anyOf" (.arr (ts.map (fun t => .obj [("type", t)]))) kvs)
  | _ => kvs

theorem sizeJ_mem_le {kv : String × JSON} {l : List (String × JSON)}
    (h : kv ∈ l) : sizeJ kv.2 ≤ sizeKVs l := by
  induction l with
  | nil => cases h
  | cons hd tl ih =>
    obtain ⟨k', v'⟩ := hd
    rcases List.mem_cons.mp h with h1 | h1
    · subst h1
      simp only [sizeKVs]
      omega
    · have := ih h1
      simp only [sizeKVs]
      omega

theorem sizeKVs_setKey_le (k : String) (v : JSON) (l : List (String × JSON)) :
    sizeKVs (setKey k v l) ≤ sizeKVs l + 1 + sizeJ v := by
  induction l with
  | nil => simp [setKey, sizeKVs]
  | cons hd tl ih =>
    obtain ⟨k', v'⟩ := hd
    by_cases hk : k' = k
    · simp only [setKey, if_pos hk, sizeKVs]
      omega
    · simp only [setKey, if_neg hk, sizeKVs]
      omega

theorem sizeKVs_eraseKey {k : String} {v : JSON} {l : List (String × JSON)}
    (h : lookupKey k l = some v) :
    sizeKVs l = 1 + sizeJ v + sizeKVs (eraseKey k l) := by
  induction l with
  | nil => simp [lookupKey] at h
  | cons hd tl ih =>
    obtain ⟨k', v'⟩ := hd
    by_cases hk : k' = k
    · simp only [lookupKey, if_pos hk] at h
      cases h
      simp only [eraseKey, if_pos hk, sizeKVs]
    · simp only [lookupKey, if_neg hk] at h
      have := ih h
      simp only [eraseKey, if_neg hk, sizeKVs]
      omega

theorem lookupKey_setKey_ne {k k2 : String} (v : JSON) (l : List (String × JSON))
    (h : k ≠ k2) : lookupKey k (setKey k2 v l) = lookupKey k l := by
  induction l with
  | nil =>
    simp only [setKey, lookupKey]
    rw [if_neg (fun hh => h hh.symm)]
  | cons hd tl ih =>
    obtain ⟨k', v'⟩ := hd
    simp only [setKey]
    by_cases hk : k' = k2
    · rw [if_pos hk]
      subst hk
      simp only [lookupKey]
      rw [if_neg (fun hh => h hh.symm), if_neg (fun hh => h hh.symm)]
    · rw [if_neg hk]
      simp only [lookupKey]
      by_cases hk2 : k' = k
      · rw [if_pos hk2, if_pos hk2]
      · rw [if_neg hk2, if_neg hk2, ih]

theorem rewriteStep_sizeKVs_le (kvs : List (String × JSON)) :
    sizeKVs (rewriteStep kvs) ≤ sizeKVs kvs := by
  unfold rewriteStep
  split
  · rename_i ts h
    have h2 : lookupKey "type"
        (setKey "anyOf" (.arr (ts.map (fun t => .obj [("type", t)]))) kvs)
        = some (.arr ts) := by
      rw [lookupKey_setKey_ne _ _ (by decide)]
      exact h
    have h3 := sizeKVs_eraseKey h2
    have h4 := sizeKVs_setKey_le "anyOf"
      (.arr (ts.map (fun t => .obj [("type", t)]))) kvs
    simp only [sizeJ] at h3 h4
    omega
  · exact Nat.le_refl _

mutual

/-- `LangChainAgent.fix_schema` (lines 97-112): if the value is a dict,
first rewrite a list-valued `type` field into `anyOf` form
(`rewriteStep`), then re-assign every value of the dict to its own
normalization; any non-dict value is returned unchanged. -/
def fix_schema (schema : JSON) : JSON :=
  match schema with
  | .obj kvs => .obj (fixVals (rewriteStep kvs))
  | _ => schema
termination_by sizeJ schema
decreasing_by
  rename_i kvs2
  have := rewriteStep_sizeKVs_le kvs2
  simp only [sizeJ]
  omega

/-- The loop `for key, value in schema.items(): schema[key] = fix_schema(value)`. -/
def fixVals (l : List (String × JSON)) : List (String × JSON) :=
  match l with
  | [] => []
  | (k, v) :: rest => (k, fix_schema v) :: fixVals rest
termination_by sizeKVs l
decreasing_by
  · simp only [sizeKVs]
    omega
  · simp only [sizeKVs]
    omega

end

theorem fix_obj (kvs : List (String × JSON)) :
    fix_schema (.obj kvs) = .obj (fixVals (rewriteStep kvs)) := by
  rw [fix_schema]

theorem fixVals_eq_map (l : List (String × JSON)) :
    fixVals l = l.map (fun kv => (kv.1, fix_schema kv.2)) := by
  induction l with
  | nil => rw [fixVals]; rfl
  | cons hd tl ih =>
    obtain ⟨k, v⟩ := hd
    rw [fixVals, ih]
    rfl

theorem isArr_fix (j : JSON) : isArr (fix_schema j) = isArr j := by
  cases j <;> simp [fix_schema, isArr]

theorem lookupKey_map (k : String) (f : JSON → JSON) (l : List (String × JSON)) :
    lookupKey k (l.map (fun kv => (kv.1, f kv.2))) = (lookupKey k l).map f := by
  induction l with
  | nil => simp [lookupKey]
  | cons hd tl ih =>
    obtain ⟨k', v⟩ := hd
    by_cases hk : k' = k <;> simp [lookupKey, hk, ih]

theorem mem_setKey {kv : String × JSON} {k : String} {v : JSON}
    {l : List (String × JSON)} (h : kv ∈ setKey k v l) : kv = (k, v) ∨ kv ∈ l := by
  induction l with
  | nil =>
    simp [setKey] at h
    exact Or.inl h
  | cons hd tl ih =>
    obtain ⟨k', v'⟩ := hd
    by_cases hk : k' = k
    · simp only [setKey, if_pos hk] at h
      rcases List.mem_cons.mp h with h1 | h1
      · subst hk
        exact Or.inl h1
      · exact Or.inr (List.mem_cons_of_mem _ h1)
    · simp only [setKey, if_neg hk] at h
      rcases List.mem_cons.mp h with h1 | h1
      · exact Or.inr (by rw [h1]; exact List.mem_cons_self _ _)
      · rcases ih h1 with h2 | h2
        · exact Or.inl h2
        · exact Or.inr (List.mem_cons_of_mem _ h2)

theorem mem_eraseKey {kv : String × JSON} {k : String}
    {l : List (String × JSON)} (h : kv ∈ eraseKey k l) : kv ∈ l := by
  induction l with
  | nil => simp [eraseKey] at h
  | cons hd tl ih =>
    obtain ⟨k', v'⟩ := hd
    by_cases hk : k' = k
    · simp only [eraseKey, if_pos hk] at h
      exact List.mem_cons_of_mem _ h
    · simp only [eraseKey, if_neg hk] at h
      rcases List.mem_cons.mp h with h1 | h1
      · rw [h1]; exact List.mem_cons_self _ _
      · exact List.mem_cons_of_mem _ (ih h1)

theorem lookupKey_setKey_self (k : String) (v : JSON) (l : List (String × JSON)) :
    lookupKey k (setKey k v l) = some v := by
  induction l with
  | nil => simp [setKey, lookupKey]
  | cons hd tl ih =>
    obtain ⟨k', v'⟩ := hd
    by_cases hk : k' = k
    · simp [setKey, hk, lookupKey]
    · simp [setKey, hk, lookupKey, ih]

theorem lookupKey_eraseKey_ne {k k2 : String} {l : List (String × JSON)}
    (h : k ≠ k2) : lookupKey k (eraseKey k2 l) = lookupKey k l := by
  induction l with
  | nil => simp [eraseKey]
  | cons hd tl ih =>
    obtain ⟨k', v'⟩ := hd
    by_cases hk : k' = k2
    · rw [eraseKey, if_pos hk]
      have : ¬ k' = k := by rw [hk]; exact fun hh => h hh.symm
      simp only [lookupKey, if_neg this]
    · rw [eraseKey, if_neg hk]
      by_cases hk2 : k' = k
      · simp only [lookupKey, if_pos hk2]
      · simp only [lookupKey, if_neg hk2, ih]

theorem lookupKey_eraseKey_self {k : String} {l : List (String × JSON)}
    (h : keysNodup l = true) : lookupKey k (eraseKey k l) = none := by
  induction l with
  | nil => simp [eraseKey, lookupKey]
  | cons hd tl ih =>
    obtain ⟨k', v'⟩ := hd
    have h' : (lookupKey k' tl).isNone = true ∧ keysNodup tl = true := by
      simpa [keysNodup, Bool.and_eq_true] using h
    by_cases hk : k' = k
    · rw [eraseKey, if_pos hk]
      subst hk
      exact Option.isNone_iff_eq_none.mp h'.1
    · rw [eraseKey, if_neg hk]
      simp only [lookupKey, if_neg hk]
      exact ih h'.2

theorem keysNodup_setKey (k : String) (v : JSON) {l : List (String × JSON)}
    (h : keysNodup l = true) : keysNodup (setKey k v l) = true := by
  induction l with
  | nil => simp [setKey, keysNodup, lookupKey]
  | cons hd tl ih =>
    obtain ⟨k', v'⟩ := hd
    have h' : (lookupKey k' tl).isNone = true ∧ keysNodup tl = true := by
      simpa [keysNodup, Bool.and_eq_true] using h
    by_cases hk : k' = k
    · rw [setKey, if_pos hk]
      simp [keysNodup, h'.1, h'.2]
    · rw [setKey, if_neg hk]
      simp only [keysNodup, Bool.and_eq_true]
      constructor
      · rw [lookupKey_setKey_ne _ _ hk]
        exact h'.1
      · exact ih h'.2

theorem lookupKey_mem {k : String} {v : JSON} {l : List (String × JSON)}
    (h : lookupKey k l = some v) : (k, v) ∈ l := by
  induction l with
  | nil => simp [lookupKey] at h
  | cons hd tl ih =>
    obtain ⟨k', v'⟩ := hd
    by_cases hk : k' = k
    · simp only [lookupKey, if_pos hk] at h
      cases h
      rw [← hk]
      exact List.mem_cons_self _ _
    · simp only [lookupKey, if_neg hk] at h
      exact List.mem_cons_of_mem _ (ih h)

mutual

/-- Does any dict at any nesting depth, including dicts nested inside
list values, hold a list-valued `type` field? -/
def hasListTypeDeep : JSON → Bool
  | .obj kvs => isArrOpt (lookupKey "type" kvs) || hasListTypeDeepKVs kvs
  | .arr xs => hasListTypeDeepL xs
  | _ => false

def hasListTypeDeepKVs : List (String × JSON) → Bool
  | [] => false
  | (_, v) :: rest => hasListTypeDeep v || hasListTypeDeepKVs rest

def hasListTypeDeepL : List JSON → Bool
  | [] => false
  | x :: rest => hasListTypeDeep x || hasListTypeDeepL rest

end

mutual

/-- Does any dict reachable through dict values only (the region
`fix_schema` visits; list values are never entered) hold a list-valued
`type` field? -/
def hasListTypeReach : JSON → Bool
  | .obj kvs => isArrOpt (lookupKey "type" kvs) || hasListTypeReachKVs kvs
  | _ => false

def hasListTypeReachKVs : List (String × JSON) → Bool
  | [] => false
  | (_, v) :: rest => hasListTypeReach v || hasListTypeReachKVs rest

end

mutual

/-- Every dict anywhere inside the value has pairwise-distinct keys; this
holds of every value decoded from a Python dict, where keys are unique by
construction. -/
def dictOk : JSON → Bool
  | .obj kvs => keysNodup kvs && dictOkKVs kvs
  | .arr xs => dictOkL xs
  | _ => true

def dictOkKVs : List (String × JSON) → Bool
  | [] => true
  | (_, v) :: rest => dictOk v && dictOkKVs rest

def dictOkL : List JSON → Bool
  | [] => true
  | x :: rest => dictOk x && dictOkL rest

end

theorem dictOkKVs_mem {kv : String × JSON} {l : List (String × JSON)}
    (hl : dictOkKVs l = true) (h : kv ∈ l) : dictOk kv.2 = true := by
  induction l with
  | nil => cases h
  | cons hd tl ih =>
    obtain ⟨k', v'⟩ := hd
    have hl' : dictOk v' = true ∧ dictOkKVs tl = true := by
      simpa [dictOkKVs, Bool.and_eq_true] using hl
    rcases List.mem_cons.mp h with h1 | h1
    · rw [h1]
      exact hl'.1
    · exact ih hl'.2 h1

theorem dictOkL_mem {x : JSON} {xs : List JSON}
    (hl : dictOkL xs = true) (h : x ∈ xs) : dictOk x = true := by
  induction xs with
  | nil => cases h
  | cons hd tl ih =>
    have hl' : dictOk hd = true ∧ dictOkL tl = true := by
      simpa [dictOkL, Bool.and_eq_true] using hl
    rcases List.mem_cons.mp h with h1 | h1
    · rw [h1]
      exact hl'.1
    · exact ih hl'.2 h1

theorem dictOkL_all {xs : List JSON}
    (h : ∀ x ∈ xs, dictOk x = true) : dictOkL xs = true := by
  induction xs with
  | nil => rw [dictOkL]
  | cons hd tl ih =>
    rw [dictOkL]
    simp only [Bool.and_eq_true]
    exact ⟨h hd (List.mem_cons_self _ _),
      ih (fun x hx => h x (List.mem_cons_of_mem _ hx))⟩

theorem reachKVs_false {l : List (String × JSON)}
    (h : ∀ kv ∈ l, hasListTypeReach kv.2 = false) :
    hasListTypeReachKVs l = false := by
  induction l with
  | nil => rw [hasListTypeReachKVs]
  | cons hd tl ih =>
    obtain ⟨k, v⟩ := hd
    rw [hasListTypeReachKVs]
    simp only [Bool.or_eq_false_iff]
    exact ⟨h (k, v) (List.mem_cons_self _ _),
      ih (fun kv hkv => h kv (List.mem_cons_of_mem _ hkv))⟩

theorem isArrOpt_eq_true {o : Option JSON} (h : isArrOpt o = true) :
    ∃ ts, o = some (.arr ts) := by
  cases o with
  | none => simp [isArrOpt] at h
  | some v =>
    cases v with
    | arr ts => exact ⟨ts, rfl⟩
    | null => simp [isArrOpt, isArr] at h
    | bool b => simp [isArrOpt, isArr] at h
    | num n => simp [isArrOpt, isArr] at h
    | str s => simp [isArrOpt, isArr] at h
    | obj kvs => simp [isArrOpt, isArr] at h

theorem isArrOpt_map_fix (o : Option JSON) :
    isArrOpt (o.map fix_schema) = isArrOpt o := by
  cases o with
  | none => rfl
  | some v => simp [isArrOpt, isArr_fix]

theorem rewriteStep_eq_arr {ts : List JSON} {l : List (String × JSON)}
    (h : lookupKey "type" l = some (.arr ts)) :
    rewriteStep l =
      eraseKey "type"
        (setKey "anyOf" (.arr (ts.map (fun t => .obj [("type", t)]))) l) := by
  unfold rewriteStep
  rw [h]

theorem rewriteStep_eq_id {l : List (String × JSON)}
    (h : isArrOpt (lookupKey "type" l) = false) : rewriteStep l = l := by
  unfold rewriteStep
  split
  · rename_i ts h2
    rw [h2] at h
    simp [isArrOpt, isArr] at h
  · rfl

theorem dictOk_rewriteStep {kvs : List (String × JSON)}
    (hok : dictOk (.obj kvs) = true) {kv : String × JSON}
    (h : kv ∈ rewriteStep kvs) : dictOk kv.2 = true := by
  have hok' : keysNodup kvs = true ∧ dictOkKVs kvs = true := by
    simpa [dictOk, Bool.and_eq_true] using hok
  rcases harr : lookupKey "type" kvs with _ | v
  · rw [rewriteStep_eq_id (by rw [harr]; rfl)] at h
    exact dictOkKVs_mem hok'.2 h
  · rcases v with _ | b | n | s | ts | kvs2
    case arr =>
      rw [rewriteStep_eq_arr harr] at h
      rcases mem_setKey (mem_eraseKey h) with h1 | h1
      · have hts : dictOk (.arr ts) = true :=
          dictOkKVs_mem hok'.2 (lookupKey_mem harr)
        have htsL : dictOkL ts = true := by
          rw [dictOk] at hts
          exact hts
        rw [h1]
        show dictOk (.arr (ts.map (fun t => .obj [("type", t)]))) = true
        rw [dictOk]
        apply dictOkL_all
        intro x hx
        obtain ⟨t, ht, rfl⟩ := List.mem_map.mp hx
        rw [dictOk]
        simp only [Bool.and_eq_true]
        refine ⟨rfl, ?_⟩
        rw [dictOkKVs]
        simp only [Bool.and_eq_true]
        exact ⟨dictOkL_mem htsL ht, rfl⟩
      · exact dictOkKVs_mem hok'.2 h1
    all_goals
      rw [rewriteStep_eq_id (by rw [harr]; rfl)] at h
      exact dictOkKVs_mem hok'.2 h

theorem mapVals_fix_id {l : List (String × JSON)}
    (h : ∀ kv ∈ l, fix_schema kv.2 = kv.2) :
    l.map (fun kv => (kv.1, fix_schema kv.2)) = l := by
  induction l with
  | nil => simp
  | cons hd tl ih =>
    obtain ⟨k, v⟩ := hd
    simp only [List.map_cons]
    rw [h (k, v) (List.mem_cons_self _ _)]
    rw [ih (fun kv hkv => h kv (List.mem_cons_of_mem _ hkv))]

theorem fix_goal_nonobj {s : JSON} (h : isObj s = false) :
    hasListTypeReach (fix_schema s) = false ∧
    fix_schema (fix_schema s) = fix_schema s := by
  cases s with
  | obj kvs => simp [isObj] at h
  | null => exact ⟨by simp [fix_schema, hasListTypeReach], by simp [fix_schema]⟩
  | bool b => exact ⟨by simp [fix_schema, hasListTypeReach], by simp [fix_schema]⟩
  | num n => exact ⟨by simp [fix_schema, hasListTypeReach], by simp [fix_schema]⟩
  | str s => exact ⟨by simp [fix_schema, hasListTypeReach], by simp [fix_schema]⟩
  | arr xs => exact ⟨by simp [fix_schema, hasListTypeReach], by simp [fix_schema]⟩

theorem fix_master :
    ∀ (n : Nat) (s : JSON), sizeJ s ≤ n → dictOk s = true →
      hasListTypeReach (fix_schema s) = false ∧
      fix_schema (fix_schema s) = fix_schema s := by
  intro n
  induction n with
  | zero =>
    intro s hs _
    cases s with
    | obj kvs => simp [sizeJ] at hs
    | null => exact fix_goal_nonobj rfl
    | bool b => exact fix_goal_nonobj rfl
    | num n => exact fix_goal_nonobj rfl
    | str s => exact fix_goal_nonobj rfl
    | arr xs => exact fix_goal_nonobj rfl
  | succ n ih =>
    intro s hs hok
    cases s with
    | null => exact fix_goal_nonobj rfl
    | bool b => exact fix_goal_nonobj rfl
    | num n => exact fix_goal_nonobj rfl
    | str s => exact fix_goal_nonobj rfl
    | arr xs => exact fix_goal_nonobj rfl
    | obj kvs =>
      have hok' : keysNodup kvs = true ∧ dictOkKVs kvs = true := by
        simpa [dictOk, Bool.and_eq_true] using hok
      have hsz : sizeKVs kvs ≤ n := by
        simp only [sizeJ] at hs
        omega
      have hvals : ∀ kv ∈ rewriteStep kvs,
          hasListTypeReach (fix_schema kv.2) = false ∧
          fix_schema (fix_schema kv.2) = fix_schema kv.2 := by
        intro kv hkv
        have h1 : sizeJ kv.2 ≤ n :=
          le_trans (le_trans (sizeJ_mem_le hkv) (rewriteStep_sizeKVs_le kvs)) hsz
        exact ih kv.2 h1 (dictOk_rewriteStep hok hkv)
      have htype : isArrOpt (lookupKey "type" (fixVals (rewriteStep kvs))) = false := by
        rw [fixVals_eq_map, lookupKey_map]
        cases harr : isArrOpt (lookupKey "type" kvs) with
        | false =>
          rw [rewriteStep_eq_id harr, isArrOpt_map_fix]
          exact harr
        | true =>
          obtain ⟨ts, hts⟩ := isArrOpt_eq_true harr
          rw [rewriteStep_eq_arr hts,
            lookupKey_eraseKey_self (keysNodup_setKey _ _ hok'.1)]
          rfl
      constructor
      · rw [fix_obj, hasListTypeReach, htype]
        rw [Bool.false_or]
        apply reachKVs_false
        intro kv2 hkv2
        rw [fixVals_eq_map] at hkv2
        obtain ⟨kv0, hkv0, rfl⟩ := List.mem_map.mp hkv2
        exact (hvals kv0 hkv0).1
      · rw [fix_obj, fix_obj, rewriteStep_eq_id htype]
        rw [fixVals_eq_map (fixVals (rewriteStep kvs))]
        congr 1
        rw [fixVals_eq_map]
        apply mapVals_fix_id
        intro kv2 hkv2
        obtain ⟨kv0, hkv0, rfl⟩ := List.mem_map.mp hkv2
        exact (hvals kv0 hkv0).2

theorem fix_arr (xs : List JSON) : fix_schema (.arr xs) = .arr xs := by
  simp [fix_schema]

theorem fix_anyOf {kvs : List (String × JSON)} {ts : List JSON}
    (hnd : keysNodup kvs = true)
    (h : lookupKey "type" kvs = some (.arr ts)) :
    lookupKey "anyOf" (objFields (fix_schema (.obj kvs)))
      = some (.arr (ts.map (fun t => .obj [("type", t)]))) ∧
    lookupKey "type" (objFields (fix_schema (.obj kvs))) = none := by
  rw [fix_obj]
  show lookupKey "anyOf" (fixVals (rewriteStep kvs)) = _ ∧
    lookupKey "type" (fixVals (rewriteStep kvs)) = none
  rw [fixVals_eq_map, lookupKey_map, lookupKey_map, rewriteStep_eq_arr h]
  constructor
  · rw [lookupKey_eraseKey_ne (by decide), lookupKey_setKey_self]
    simp [fix_arr]
  · rw [lookupKey_eraseKey_self (keysNodup_setKey _ _ hnd)]
    rfl

/-- C1: the claim states that `fix_schema` leaves no list-valued `type`
field in any mapping at any nesting depth, *including mappings nested
inside list values such as an existing anyOf array*.  This is false:
`fix_schema` recurses only into dict values, and a value that is a list
is returned unchanged, so a dict nested inside a list keeps its
list-valued `type` field.  Concretely, the schema
`[("anyOf", [ [("type", ["string"])] ])]` is returned unchanged and still
contains a list-valued `type` field at depth 2. -/
theorem C1_counterexample :
    fix_schema (.obj [("anyOf", .arr [.obj [("type", .arr [.str "string"])]])])
        = .obj [("anyOf", .arr [.obj [("type", .arr [.str "string"])]])] ∧
    hasListTypeDeep
      (fix_schema (.obj [("anyOf", .arr [.obj [("type", .arr [.str "string"])]])]))
        = true := by
  constructor
  · simp [fix_schema, fixVals, rewriteStep, lookupKey, setKey, eraseKey]
  · simp [fix_schema, fixVals, rewriteStep, lookupKey, setKey, eraseKey,
      hasListTypeDeep, hasListTypeDeepKVs, hasListTypeDeepL, isArrOpt, isArr]

/-- C1 (amended): for every finite, non-cyclic schema whose dicts have
pairwise-distinct keys (true of every Python dict), `fix_schema` returns
a schema in which no mapping *reachable through mapping values* retains a
list-valued `type` field; mappings nested inside list values are not
visited and pass through unchanged, as do non-mapping inputs; and a
mapping with a list-valued `type` field gets an `anyOf` field holding one
single-type sub-schema per entry of the original list, with the `type`
field removed. -/
theorem C1_fix_schema_normalizes :
    (∀ s : JSON, dictOk s = true → hasListTypeReach (fix_schema s) = false) ∧
    (∀ s : JSON, isObj s = false → fix_schema s = s) ∧
    (∀ (kvs : List (String × JSON)) (ts : List JSON),
      keysNodup kvs = true → lookupKey "type" kvs = some (.arr ts) →
      lookupKey "anyOf" (objFields (fix_schema (.obj kvs)))
          = some (.arr (ts.map (fun t => .obj [("type", t)]))) ∧
      lookupKey "type" (objFields (fix_schema (.obj kvs))) = none) := by
  refine ⟨?_, ?_, ?_⟩
  · intro s h
    exact (fix_master (sizeJ s) s (Nat.le_refl _) h).1
  · intro s h
    cases s
    case obj kvs => simp [isObj] at h
    all_goals simp [fix_schema]
  · intro kvs ts hnd h
    exact fix_anyOf hnd h

/-- Witness for C1 (amended), at the schema
`[("type", ["string", "null"])]` and at the non-mapping input `"hello"`. -/
theorem C1_witness :
    hasListTypeReach
      (fix_schema (.obj [("type", .arr [.str "string", .str "null"])])) = false ∧
    fix_schema (.str "hello") = .str "hello" ∧
    lookupKey "anyOf"
        (objFields (fix_schema (.obj [("type", .arr [.str "string", .str "null"])])))
      = some (.arr [.obj [("type", .str "string")], .obj [("type", .str "null")]]) :=
  ⟨C1_fix_schema_normalizes.1 _
      (by simp [dictOk, dictOkKVs, dictOkL, keysNodup, lookupKey]),
   C1_fix_schema_normalizes.2.1 _ (by rfl),
   by
     have h := (C1_fix_schema_normalizes.2.2
       [("type", .arr [.str "string", .str "null"])] [.str "string", .str "null"]
       (by simp [keysNodup, lookupKey]) (by simp [lookupKey])).1
     simpa using h⟩

/-- C4: schema normalization is idempotent.  Stated for every schema
whose dicts have pairwise-distinct keys, which is every value a Python
dict can take (a Python dict cannot hold a duplicate key). -/
theorem C4_fix_schema_idempotent :
    ∀ s : JSON, dictOk s = true → fix_schema (fix_schema s) = fix_schema s :=
  fun s h => (fix_master (sizeJ s) s (Nat.le_refl _) h).2

/-- Witness for C4 at a nested schema containing a list-valued `type`
field at the top level and another one inside `properties`. -/
theorem C4_witness :
    dictOk (.obj [("type", .arr [.str "string", .str "null"]),
      ("properties", .obj [("x", .obj [("type", .arr [.str "number"])])])]) = true ∧
    fix_schema (fix_schema (.obj [("type", .arr [.str "string", .str "null"]),
      ("properties", .obj [("x", .obj [("type", .arr [.str "number"])])])]))
      = fix_schema (.obj [("type", .arr [.str "string", .str "null"]),
      ("properties", .obj [("x", .obj [("type", .arr [.str "number"])])])]) :=
  ⟨by simp [dictOk, dictOkKVs, dictOkL, keysNodup, lookupKey],
   C4_fix_schema_idempotent _
     (by simp [dictOk, dictOkKVs, dictOkL, keysNodup, lookupKey])⟩

/-- Is `b` a UTF-8 continuation byte (0x80 to 0xBF)? -/
def isCont (b : Nat) : Bool := 128 ≤ b && b < 192

/-- Strict UTF-8 decoding of a byte sequence, the model of Python
`bytes.decode()` with the default utf-8 codec: rejects invalid lead
bytes, truncated or invalid continuation sequences, overlong encodings,
surrogates and code points above 0x10FFFF, returning `none` where Python
raises UnicodeDecodeError. -/
def utf8DecodeList : List Nat → Option (List Char)
  | [] => some []
  | b :: rest =>
    if b < 128 then
      (utf8DecodeList rest).map (fun cs => Char.ofNat b :: cs)
    else if b < 194 then none
    else if b < 224 then
      match rest with
      | b1 :: rest2 =>
        if isCont b1 then
          (utf8DecodeList rest2).map
            (fun cs => Char.ofNat ((b - 192) * 64 + (b1 - 128)) :: cs)
        else none
      | [] => none
    else if b < 240 then
      match rest with
      | b1 :: b2 :: rest2 =>
        if isCont b1 && isCont b2 then
          let cp := (b - 224) * 4096 + (b1 - 128) * 64 + (b2 - 128)
          if cp < 2048 then none
          else if 55296 ≤ cp && cp < 57344 then none
          else (utf8DecodeList rest2).map (fun cs => Char.ofNat cp :: cs)
        else none
      | _ => none
    else if b < 245 then
      match rest with
      | b1 :: b2 :: b3 :: rest2 =>
        if isCont b1 && isCont b2 && isCont b3 then
          let cp := (b - 240) * 262144 + (b1 - 128) * 4096
            + (b2 - 128) * 64 + (b3 - 128)
          if cp < 65536 then none
          else if 1114111 < cp then none
          else (utf8DecodeList rest2).map (fun cs => Char.ofNat cp :: cs)
        else none
      | _ => none
    else none

/-- Python `bytes.decode()`: the decoded string, or `none` where Python
raises UnicodeDecodeError. -/
def utf8Decode (bs : List Nat) : Option String :=
  (utf8DecodeList bs).map String.mk

/-- The value held by `resource.blob`: either a Python `bytes` object
(a sequence of byte values) or a non-bytes object such as the base64
`str` used by the MCP BlobResourceContents type; `pyStr s` stands for an
object whose `str()` representation is `s`. -/
inductive BlobValue where
  | bytes (bs : List Nat)
  | pyStr (s : String)

/-- The inner contents of an embedded resource, as the decoder probes it
with `hasattr`: an optional `text` attribute, an optional `blob`
attribute, and the `type` used in the unexpected-resource error
message. -/
structure ResourceContents where
  text : Option String
  blob : Option BlobValue
  type : String

/-- One content item of an MCP CallToolResult.  In `mcp.types` the
`type` tag uniquely identifies the class, so the tag dispatch of the
source (`match item.type`) is the constructor dispatch here;
`otherContent` stands for any content class with another tag. -/
inductive MCPContent where
  | textContent (text : String)
  | imageContent (data : String)
  | embeddedResource (resource : ResourceContents)
  | otherContent (type : String)

/-- A stand-in for the Python `repr` of a content item, used in the
error-message strings the source builds with f-strings. -/
def reprItem : MCPContent → String
  | .textContent t => "TextContent(text=" ++ t ++ ")"
  | .imageContent d => "ImageContent(data=" ++ d ++ ")"
  | .embeddedResource r => "EmbeddedResource(type=" ++ r.type ++ ")"
  | .otherContent ty => "Content(type=" ++ ty ++ ")"

/-- A stand-in for the Python `repr` of a content list. -/
def reprContent (l : List MCPContent) : String :=
  "[" ++ String.intercalate ", " (l.map reprItem) ++ "]"

/-- The exceptions `_parse_mcp_tool_result` can raise: a ToolException
with its message, or the UnicodeDecodeError escaping from
`resource.blob.decode()` on invalid UTF-8 bytes. -/
inductive ParseError where
  | toolException (msg : String)
  | unicodeDecodeError

/-- `str(e)` for a ParseError, used when `_arun` embeds the parse
failure in its fail-soft result string. -/
def ParseError.toMessage : ParseError → String
  | .toolException m => m
  | .unicodeDecodeError => "utf-8 codec cannot decode bytes"

/-- One iteration of the decoding loop of `_parse_mcp_tool_result`
(lines 42-64): the decoded form of a single content item, or the
exception that iteration raises.  For an embedded resource: a `text`
attribute is appended as is; otherwise a `blob` attribute is appended as
`blob.decode()` when it is a bytes object (raising UnicodeDecodeError on
invalid UTF-8) and as `str(blob)` otherwise; otherwise a ToolException
naming the resource type is raised. -/
def decodeItem : MCPContent → Except ParseError String
  | .textContent text => .ok text
  | .imageContent data => .ok data
  | .embeddedResource resource =>
    match resource.text with
    | some t => .ok t
    | none =>
      match resource.blob with
      | some (.bytes bs) =>
        match utf8Decode bs with
        | some s => .ok s
        | none => .error .unicodeDecodeError
      | some (.pyStr s) => .ok s
      | none =>
        .error (.toolException ("Unexpected resource type: " ++ resource.type))
  | .otherContent ty =>
    .error (.toolException ("Unexpected content type: " ++ ty))

/-- The loop `decoded_result = ""` / `for item in content: decoded_result += ...`,
with an exception in any iteration aborting the loop. -/
def decodeContent : String → List MCPContent → Except ParseError String
  | acc, [] => .ok acc
  | acc, item :: rest =>
    match decodeItem item with
    | .ok s => decodeContent (acc ++ s) rest
    | .error e => .error e

/-- `mcp.types.CallToolResult` as the decoder consumes it: an ordered
content sequence and the error flag. -/
structure CallToolResult where
  content : List MCPContent
  isError : Bool

/-- `_parse_mcp_tool_result` (lines 22-66 of `langchain_agent.py`). -/
def _parse_mcp_tool_result (tool_result : CallToolResult) : Except ParseError String :=
  if tool_result.isError then
    .error (.toolException ("Tool execution failed: " ++ reprContent tool_result.content))
  else if tool_result.content.isEmpty then
    .error (.toolException "Tool execution returned no content")
  else
    decodeContent "" tool_result.content

theorem decodeContent_text (ts : List String) :
    ∀ acc : String, decodeContent acc (ts.map MCPContent.textContent)
      = .ok (ts.foldl (fun r s => r ++ s) acc) := by
  induction ts with
  | nil => intro acc; rfl
  | cons hd tl ih =>
    intro acc
    simp only [List.map_cons, List.foldl_cons, decodeContent, decodeItem]
    exact ih (acc ++ hd)

/-- C2: the claim states that a resource exposing only a binary payload
has that payload appended as UTF-8 text when the bytes are valid UTF-8
and that otherwise, when UTF-8 decoding is not possible, its string
representation is appended *instead of failing*.  That is false: for a
bytes payload, line 57 calls `resource.blob.decode()`, which raises
UnicodeDecodeError on invalid UTF-8 (here the single byte 0xFF); the
`str(...)` branch is taken only when the payload is not a bytes object.
The decoder therefore fails rather than appending anything. -/
theorem C2_counterexample :
    _parse_mcp_tool_result
        ⟨[.embeddedResource ⟨none, some (.bytes [255]), "blob"⟩], false⟩
      = .error .unicodeDecodeError := rfl

/-- C2 (amended): for every embedded-resource content item whose
resource exposes no text payload but exposes a binary payload: when the
payload is a bytes object of valid UTF-8, the decoder returns the
decoded text; when the payload is a bytes object of invalid UTF-8, the
decoder fails with the UnicodeDecodeError raised by `bytes.decode()`
(it does not append a string representation); when the payload is not a
bytes object, the decoder returns its string representation; and the
decoder fails with a ToolExecutionError naming the resource kind only
when the resource exposes neither a text nor a binary payload. -/
theorem C2_embedded_resource_decoding :
    ∀ r : ResourceContents, r.text = none →
      (∀ (bs : List Nat) (s : String),
        r.blob = some (.bytes bs) → utf8Decode bs = some s →
        _parse_mcp_tool_result ⟨[.embeddedResource r], false⟩ = .ok s) ∧
      (∀ bs : List Nat, r.blob = some (.bytes bs) → utf8Decode bs = none →
        _parse_mcp_tool_result ⟨[.embeddedResource r], false⟩
          = .error .unicodeDecodeError) ∧
      (∀ s : String, r.blob = some (.pyStr s) →
        _parse_mcp_tool_result ⟨[.embeddedResource r], false⟩ = .ok s) ∧
      (r.blob = none →
        _parse_mcp_tool_result ⟨[.embeddedResource r], false⟩
          = .error (.toolException ("Unexpected resource type: " ++ r.type))) := by
  intro r ht
  refine ⟨?_, ?_, ?_, ?_⟩
  · intro bs s hb hd
    simp [_parse_mcp_tool_result, decodeContent, decodeItem, ht, hb, hd]
  · intro bs hb hd
    simp [_parse_mcp_tool_result, decodeContent, decodeItem, ht, hb, hd]
  · intro s hb
    simp [_parse_mcp_tool_result, decodeContent, decodeItem, ht, hb]
  · intro hb
    simp [_parse_mcp_tool_result, decodeContent, decodeItem, ht, hb]

/-- Witness for C2 (amended): a binary-only resource whose bytes 97, 98
are the valid UTF-8 encoding of "ab" decodes to "ab". -/
theorem C2_witness :
    _parse_mcp_tool_result
        ⟨[.embeddedResource ⟨none, some (.bytes [97, 98]), "blob"⟩], false⟩
      = .ok "ab" :=
  (C2_embedded_resource_decoding ⟨none, some (.bytes [97, 98]), "blob"⟩ rfl).1
    [97, 98] "ab" rfl rfl

/-- C5: whenever the error flag is set, decoding fails with a
ToolExecutionError carrying the raw content, before any content item is
examined (the result is this fixed error for arbitrary content); and
whenever the error flag is clear and the content sequence is empty,
decoding fails with the no-content ToolExecutionError. -/
theorem C5_error_flag_and_empty_content :
    ∀ tr : CallToolResult,
      (tr.isError = true →
        _parse_mcp_tool_result tr =
          .error (.toolException
            ("Tool execution failed: " ++ reprContent tr.content))) ∧
      (tr.isError = false → tr.content = [] →
        _parse_mcp_tool_result tr =
          .error (.toolException "Tool execution returned no content")) := by
  intro tr
  constructor
  · intro h
    simp [_parse_mcp_tool_result, h]
  · intro h hc
    simp [_parse_mcp_tool_result, h, hc]

/-- Witness for C5 at a result with the error flag set over decodable
content, and at an empty success result. -/
theorem C5_witness :
    _parse_mcp_tool_result ⟨[.textContent "ok"], true⟩ =
      .error (.toolException
        ("Tool execution failed: " ++ reprContent [.textContent "ok"])) ∧
    _parse_mcp_tool_result ⟨[], false⟩ =
      .error (.toolException "Tool execution returned no content") :=
  ⟨(C5_error_flag_and_empty_content ⟨[.textContent "ok"], true⟩).1 rfl,
   (C5_error_flag_and_empty_content ⟨[], false⟩).2 rfl rfl⟩

/-- C6: a success result whose content is a non-empty sequence of text
items decodes to the concatenation of their text values in order, with
no separators inserted. -/
theorem C6_text_concatenation :
    ∀ ts : List String, ts ≠ [] →
      _parse_mcp_tool_result ⟨ts.map MCPContent.textContent, false⟩
        = .ok (String.join ts) := by
  intro ts h
  have hne : (ts.map MCPContent.textContent).isEmpty = false := by
    cases ts with
    | nil => exact absurd rfl h
    | cons hd tl => rfl
  simp only [_parse_mcp_tool_result, hne, Bool.false_eq_true, if_false]
  rw [decodeContent_text ts ""]
  rfl

/-- Witness for C6: the items "ab", "cd" decode to "abcd". -/
theorem C6_witness :
    _parse_mcp_tool_result
        ⟨[.textContent "ab", .textContent "cd"], false⟩ = .ok "abcd" := by
  have h := C6_text_concatenation ["ab", "cd"] (List.cons_ne_nil _ _)
  simpa using h

/-- `mcp.types.Tool` as the adapter factory consumes it: a name, an
optional description and an input schema. -/
structure Tool where
  name : String
  description : Option String
  inputSchema : JSON

/-- The per-tool adapter class `McpToLangChainAdapter` (lines 127-135),
parameterized by data instead of by a per-tool class: the bound tool
name, description, the normalized schema handed to the pydantic
converter, and the `handle_tool_error` flag. -/
structure McpToLangChainAdapter where
  name : String
  description : String
  args_schema : JSON
  handle_tool_error : Bool

/-- Adapter construction for one tool (lines 127-135): name is
`tool.name or "NO NAME"` (the fallback fires on the empty string, the
only falsy str), description is `tool.description or ""`, the argument
schema is the `fix_schema`-normalized input schema, and
`handle_tool_error` is the class default True. -/
def McpToLangChainAdapter.ofTool (tool : Tool) : McpToLangChainAdapter :=
  { name := if tool.name = "" then "NO NAME" else tool.name
    description :=
      match tool.description with
      | some d => if d = "" then "" else d
      | none => ""
    args_schema := fix_schema tool.inputSchema
    handle_tool_error := true }

/-- Exceptions an adapter invocation can raise: the NotImplementedError
of `_run`, or a connector exception (modelled by its `str(e)`
description) re-raised by `_arun` when `handle_tool_error` is False. -/
inductive AdapterError where
  | notImplementedError (msg : String)
  | connectorError (msg : String)

/-- `McpToLangChainAdapter._run` (lines 137-144): the synchronous entry
point receives the connector call operation (reachable through `self`)
and the keyword arguments, but unconditionally raises
NotImplementedError without using either. -/
def McpToLangChainAdapter._run (_self : McpToLangChainAdapter)
    (_call_tool : String → List (String × JSON) → Except String CallToolResult)
    (_kwargs : List (String × JSON)) : Except AdapterError String :=
  .error (.notImplementedError "MCP tools only support async operations")

/-- `McpToLangChainAdapter._arun` (lines 146-178): call the connector
with the bound tool name and the keyword arguments; on success parse the
result, converting a parse failure into a fail-soft string embedding the
failure reason and the raw content; a connector exception is converted
into an error string when `handle_tool_error` is set, and re-raised
otherwise.  The connector is abstracted by the `call_tool` oracle whose
error case carries `str(e)` of the raised exception. -/
def McpToLangChainAdapter._arun (self : McpToLangChainAdapter)
    (call_tool : String → List (String × JSON) → Except String CallToolResult)
    (kwargs : List (String × JSON)) : Except AdapterError String :=
  match call_tool self.name kwargs with
  | .ok tool_result =>
    match _parse_mcp_tool_result tool_result with
    | .ok s => .ok s
    | .error e =>
      .ok ("Error parsing result: " ++ e.toMessage
        ++ "; Raw content: " ++ reprContent tool_result.content)
  | .error e =>
    if self.handle_tool_error then
      .ok ("Error executing MCP tool: " ++ e)
    else
      .error (.connectorError e)

/-- C7: when the connector invocation raises and `handle_tool_error` is
enabled — the value every adapter is constructed with, hence the default
— `_arun` returns an error string containing the exception description
instead of raising; when the flag is disabled, the exception propagates
un-caught. -/
theorem C7_connector_error_handling :
    (∀ tool : Tool, (McpToLangChainAdapter.ofTool tool).handle_tool_error = true) ∧
    ∀ (ad : McpToLangChainAdapter)
      (call_tool : String → List (String × JSON) → Except String CallToolResult)
      (kwargs : List (String × JSON)) (e : String),
      call_tool ad.name kwargs = .error e →
      (ad.handle_tool_error = true →
        ad._arun call_tool kwargs = .ok ("Error executing MCP tool: " ++ e)) ∧
      (ad.handle_tool_error = false →
        ad._arun call_tool kwargs = .error (.connectorError e)) := by
  constructor
  · intro tool
    rfl
  · intro ad ct kwargs e hct
    constructor
    · intro hflag
      simp [McpToLangChainAdapter._arun, hct, hflag]
    · intro hflag
      simp [McpToLangChainAdapter._arun, hct, hflag]

/-- Witness for C7 with a connector that always raises "boom". -/
theorem C7_witness :
    (McpToLangChainAdapter.mk "t" "" .null true)._arun
        (fun _ _ => .error "boom") [] = .ok ("Error executing MCP tool: " ++ "boom") ∧
    (McpToLangChainAdapter.mk "t" "" .null false)._arun
        (fun _ _ => .error "boom") [] = .error (.connectorError "boom") :=
  ⟨(C7_connector_error_handling.2 (McpToLangChainAdapter.mk "t" "" .null true)
      (fun _ _ => .error "boom") [] "boom" rfl).1 rfl,
   (C7_connector_error_handling.2 (McpToLangChainAdapter.mk "t" "" .null false)
      (fun _ _ => .error "boom") [] "boom" rfl).2 rfl⟩

/-- C8: synchronous invocation always fails with NotImplementedError
("MCP tools only support async operations" — the UnsupportedOperationError
of the spec taxonomy) and never executes the underlying tool: the result
is the same fixed error for every connector operation and every
keyword-argument input. -/
theorem C8_sync_invocation_unsupported :
    ∀ (ad : McpToLangChainAdapter)
      (ct ct2 : String → List (String × JSON) → Except String CallToolResult)
      (kwargs kwargs2 : List (String × JSON)),
      ad._run ct kwargs
        = .error (.notImplementedError "MCP tools only support async operations") ∧
      ad._run ct kwargs = ad._run ct2 kwargs2 :=
  fun _ _ _ _ _ => ⟨rfl, rfl⟩

/-- The slice of the external AgentExecutor state the agent wrapper
reads and writes: `max_iterations` (set from `max_steps` at line 206,
re-assigned by `run` at line 232) and the `verbose` flag. -/
structure AgentExecutor where
  max_iterations : Nat
  verbose : Bool

/-- The mutable state of `LangChainAgent`: the construction-time
`max_steps` default and the optional executor built by the
initialization step (`None` until initialization completes). -/
structure LangChainAgent where
  max_steps : Nat
  agent : Option AgentExecutor

/-- `LangChainAgent.__init__` (lines 76-90): stores `max_steps` and
leaves `self.agent = None`; the agent is unusable until the
initialization step builds the executor. -/
def LangChainAgent.construct (max_steps : Nat) : LangChainAgent :=
  { max_steps := max_steps, agent := none }

/-- `LangChainAgent._create_agent` (lines 186-207): builds an executor
with `max_iterations = self.max_steps` and `verbose = True`. -/
def LangChainAgent._create_agent (self : LangChainAgent) : AgentExecutor :=
  { max_iterations := self.max_steps, verbose := true }

/-- The error of running an uninitialized agent: line 229 raises
`RuntimeError("MCP client is not initialized")`. -/
inductive RunError where
  | runtimeError (msg : String)

/-- `LangChainAgent.run` (lines 209-241).  The external
`agent.ainvoke(...)` call is abstracted by the `ainvoke` oracle, a
function of the executor state it is invoked on, the query, and the chat
history, returning the final output string (`result["output"]`).  `run`
returns that output together with the post-state of the agent, since
Python mutates `self.agent.max_iterations` in place at line 232. -/
def LangChainAgent.run (self : LangChainAgent) (query : String)
    (max_steps : Option Nat) (chat_history : Option (List String))
    (ainvoke : AgentExecutor → String → List String → String) :
    Except RunError (String × LangChainAgent) :=
  match self.agent with
  | none => .error (.runtimeError "MCP client is not initialized")
  | some agent =>
    let agent1 :=
      match max_steps with
      | some m => { agent with max_iterations := m }
      | none => agent
    let ch := chat_history.getD []
    .ok (ainvoke agent1 query ch, { self with agent := some agent1 })

/-- C3: a run with an explicit step-limit override writes the override
into the executor before the run (the ainvoke oracle observes the
updated executor), the new value persists as the default for every
subsequent run that passes no override, and a run without an override
leaves the step limit unchanged. -/
theorem C3_step_limit_override_persists :
    ∀ (self : LangChainAgent) (agent : AgentExecutor) (q : String) (m : Nat)
      (ch : Option (List String))
      (inv : AgentExecutor → String → List String → String),
      self.agent = some agent →
      (self.run q (some m) ch inv
        = .ok (inv { agent with max_iterations := m } q (ch.getD []),
            { self with agent := some { agent with max_iterations := m } })) ∧
      (self.run q none ch inv
        = .ok (inv agent q (ch.getD []), { self with agent := some agent })) ∧
      (∀ (q2 : String) (ch2 : Option (List String))
        (inv2 : AgentExecutor → String → List String → String),
        LangChainAgent.run
            { self with agent := some { agent with max_iterations := m } }
            q2 none ch2 inv2
          = .ok (inv2 { agent with max_iterations := m } q2 (ch2.getD []),
              { self with agent := some { agent with max_iterations := m } })) := by
  intro self agent q m ch inv hag
  refine ⟨?_, ?_, ?_⟩
  · simp [LangChainAgent.run, hag]
  · simp [LangChainAgent.run, hag]
  · intro q2 ch2 inv2
    simp [LangChainAgent.run]

/-- Witness for C3: overriding the step limit to 9 on an agent whose
executor holds limit 5 rewrites the executor to limit 9 in the
post-state. -/
theorem C3_witness :
    (LangChainAgent.mk 5 (some (AgentExecutor.mk 5 true))).run "q" (some 9) none
        (fun _ _ _ => "out")
      = .ok ("out", LangChainAgent.mk 5 (some (AgentExecutor.mk 9 true))) :=
  (C3_step_limit_override_persists (LangChainAgent.mk 5 (some (AgentExecutor.mk 5 true)))
    (AgentExecutor.mk 5 true) "q" 9 none (fun _ _ _ => "out") rfl).1

/-- C9: running an agent whose initialization has not completed (its
executor is still None, as right after construction) fails with
`RuntimeError("MCP client is not initialized")` — the NotInitializedError
of the spec taxonomy — identically for every ainvoke oracle, so the
agent loop is never driven. -/
theorem C9_run_before_initialization :
    ∀ (self : LangChainAgent) (q : String) (ms : Option Nat)
      (ch : Option (List String))
      (inv : AgentExecutor → String → List String → String) (m : Nat),
      (LangChainAgent.construct m).agent = none ∧
      (self.agent = none →
        self.run q ms ch inv
          = .error (.runtimeError "MCP client is not initialized")) := by
  intro self q ms ch inv m
  refine ⟨rfl, ?_⟩
  intro h
  simp [LangChainAgent.run, h]

/-- Witness for C9: a freshly constructed agent refuses to run. -/
theorem C9_witness :
    (LangChainAgent.construct 5).run "query" none none (fun _ _ _ => "out")
      = .error (.runtimeError "MCP client is not initialized") :=
  (C9_run_before_initialization (LangChainAgent.construct 5) "query" none none
    (fun _ _ _ => "out") 5).2 rfl

namespace pymcp

/-- `pymcp.types.TextContent` (lines 21-26 of `types.py`). -/
structure TextContent where
  type : String
  text : String
  mime_type : Option String

/-- One entry of `ToolResult.content`, declared as
`list[TextContent | dict[str, Any]]`. -/
inductive ContentEntry where
  | textContent (t : TextContent)
  | dict (kvs : List (String × JSON))

/-- `pymcp.types.ToolResult` (lines 29-33): the content sequence plus
the error flag declared as `isError: bool = False`. -/
structure ToolResult where
  content : List ContentEntry
  isError : Bool

/-- Constructing a ToolResult from content alone: pydantic fills the
omitted `isError` field with its declared default `False`
(line 33 of `types.py`). -/
def ToolResult.fromContent (content : List ContentEntry) : ToolResult :=
  { content := content, isError := false }

end pymcp

/-- C10: a ToolResult built from content alone carries isError = False:
it is treated as a success result unless the error flag is explicitly
set. -/
theorem C10_toolresult_default_not_error :
    ∀ c : List pymcp.ContentEntry,
      (pymcp.ToolResult.fromContent c).isError = false :=
  fun _ => rfl
